import Mathlib

/-!
Verification of the incremental multi-file code-edit stream protocol of
`backend/agent_endpoints.py` (the `event_generator` inside `agent_chat_stream`,
lines 561-1018), together with the helpers it uses.

Strings are modelled as `List Char` (`Str`), so that every operation of the
source can be written as an executable structural recursion.  Python string
primitives (`str.strip`, `str.rstrip` of newlines, `str.splitlines`, `in`,
`str.replace` with count 1, `pathlib.Path(...).name`, `re.sub` for the two
fixed sanitizer patterns) are translated one by one below.

`parse_search_replace_block` and `apply_search_replace_in_memory` are imported
by the source from `replace_code.py`, which is not part of the sources; they
are modelled from the spec (section 4.4), as marked on their doc comments.
The line counting of `difflib.ndiff` (Python standard library, external) is
modelled per the spec's section 4.3 as a longest-common-subsequence alignment.
-/

abbrev Str := List Char

/-- Coerce a Lean string literal to the `List Char` string model. -/
def chars (s : String) : Str := s.data

/-!
## Line tokenizer

`event_generator` keeps one carry-over `buffer`; each incoming chunk is
appended to it and then the loop at lines 620-621
(`while "\n" in buffer: line, buffer = buffer.split("\n", 1)`)
splits off every complete line.  `splitLines` computes, in one pass, the list
of complete lines this loop extracts together with the final unterminated
remainder.
-/

def splitLines : Str → List Str × Str
  | [] => ([], [])
  | c :: cs =>
    let p := splitLines cs
    if c = '\n' then ([] :: p.1, p.2)
    else
      match p.1 with
      | [] => ([], c :: p.2)
      | l :: ls => ((c :: l) :: ls, p.2)

/-- One `feed` step of the tokenizer, as specified in section 4.1: the chunk is
appended to the carry-over buffer and all newly complete lines are split off.
The first component accumulates all lines produced so far. -/
def feed (st : List Str × Str) (chunk : Str) : List Str × Str :=
  let p := splitLines (st.2 ++ chunk)
  (st.1 ++ p.1, p.2)

/-- Feeding all chunks in order, starting from an empty buffer. -/
def feedAll (chunks : List Str) : List Str × Str :=
  chunks.foldl feed ([], [])

/-!
## Python string primitives used by the stream loop
-/

/-- The whitespace class of Python `str.strip` / regex `\s` (ASCII part). -/
def isWs (c : Char) : Bool :=
  c == ' ' || c == '\t' || c == '\n' || c == '\r' || c == '\x0b' || c == '\x0c'

/-- Python `str.strip()`. -/
def strip (s : Str) : Str :=
  ((s.dropWhile isWs).reverse.dropWhile isWs).reverse

/-- Python `s.rstrip("\n")`: drop trailing newline characters. -/
def rstripNl (s : Str) : Str :=
  (s.reverse.dropWhile (fun c => c == '\n')).reverse

/-- Python `"\n".join(lines)` (lines 678, 799). -/
def joinNl (lines : List Str) : Str :=
  List.intercalate ['\n'] lines

/-- Python `str.splitlines()` restricted to `'\n'` separators (the only line
separator the tokenizer ever leaves inside content passed to `splitlines`):
the complete lines plus the unterminated tail when nonempty. -/
def splitlinesPy (s : Str) : List Str :=
  let p := splitLines s
  p.1 ++ (if p.2 = [] then [] else [p.2])

/-- Python `needle in hay` for strings: verbatim substring test. -/
def containsSub (hay needle : Str) : Bool :=
  match hay with
  | [] => needle.isPrefixOf ([] : Str)
  | c :: t => needle.isPrefixOf (c :: t) || containsSub t needle

/-- Python `hay.replace(needle, repl, 1)`: replace the first occurrence. -/
def replaceFirst (hay needle repl : Str) : Str :=
  match hay with
  | [] => if needle.isPrefixOf ([] : Str) then repl else []
  | c :: t =>
    if needle.isPrefixOf (c :: t) then repl ++ (c :: t).drop needle.length
    else c :: replaceFirst t needle repl

/-- Split a string at `'/'`, as `pathlib` does when parsing a POSIX path. -/
def splitSlash : Str → List Str
  | [] => [[]]
  | c :: cs =>
    let r := splitSlash cs
    if c = '/' then [] :: r
    else
      match r with
      | [] => [[c]]
      | h :: t => (c :: h) :: t

/-- `pathlib.Path(s).name` (line 625): the last path component, after dropping
empty and `"."` components (pathlib removes both while parsing). -/
def pathBasename (s : Str) : Str :=
  (((splitSlash s).filter (fun c => !(c == ([] : Str)) && !(c == ['.'])))).getLast?.getD []

/-!
## The `_sanitize_message_text` helper (lines 607-613)

`re.sub` is applied twice: first removing `tmp/aider_<run>/` prefixes (with the
trailing slash), then bare `tmp/aider_<run>` tokens, where `<run>` is one or
more characters that are neither `'/'` nor whitespace.  Neither pattern can
backtrack (the greedy class excludes the character that follows), so each match
is: the literal `tmp/aider_`, a maximal nonempty run of non-slash non-space
characters, and, for the first pattern, one `'/'`.  `sanPassAux` scans left to
right replacing non-overlapping matches by nothing, with a fuel argument equal
to the length of the string (each step consumes at least one character).
-/

def sanTok : Str := chars "tmp/aider_"

/-- Length of the sanitizer match starting exactly at the head, if any. -/
def sanMatchLen (withSlash : Bool) (l : Str) : Option Nat :=
  if sanTok.isPrefixOf l then
    let rest := l.drop sanTok.length
    let run := rest.takeWhile (fun c => !(c == '/') && !(isWs c))
    if run = [] then none
    else if withSlash then
      match rest.drop run.length with
      | '/' :: _ => some (sanTok.length + run.length + 1)
      | _ => none
    else some (sanTok.length + run.length)
  else none

def sanPassAux (withSlash : Bool) : Nat → Str → Str
  | 0, _ => []
  | _, [] => []
  | fuel + 1, c :: t =>
    match sanMatchLen withSlash (c :: t) with
    | some n => sanPassAux withSlash fuel ((c :: t).drop n)
    | none => c :: sanPassAux withSlash fuel t

def sanPass (withSlash : Bool) (s : Str) : Str :=
  sanPassAux withSlash s.length s

/-- `_sanitize_message_text` (lines 607-613). -/
def sanitize_message_text (s : Str) : Str :=
  if s = [] then s else sanPass false (sanPass true s)

/-!
## Diff statistics (lines 699-707, 755-765, 842-849)

The source counts lines of `difflib.ndiff(a_lines, b_lines)` starting with
`"+ "` (additions) and `"- "` (deletions).  `difflib` is an external standard
library; per the spec's section 4.3 its alignment is modelled as a
longest-common-subsequence alignment: matched lines are the LCS, every
unmatched old line counts as a deletion and every unmatched new line as an
addition.  `lcsAux` carries a fuel argument (the recursion consumes one unit
per step and at most `a.length + b.length` steps are needed), keeping the
definition structurally recursive and kernel-evaluable.
-/

def lcsAux : Nat → List Str → List Str → Nat
  | 0, _, _ => 0
  | _ + 1, [], _ => 0
  | _ + 1, _, [] => 0
  | fuel + 1, a :: as, b :: bs =>
    if a = b then 1 + lcsAux fuel as bs
    else max (lcsAux fuel (a :: as) bs) (lcsAux fuel as (b :: bs))

def lcsLength (a b : List Str) : Nat :=
  lcsAux (a.length + b.length) a b

/-- `(additions, deletions)` of the modelled `difflib.ndiff` line counting. -/
def ndiffCounts (a b : List Str) : Nat × Nat :=
  let m := lcsLength a b
  (b.length - m, a.length - m)

/-- The diff computation the stream loop performs on two file contents:
`splitlines` both, then count added/removed lines (lines 701-704). -/
def pyDiff (old new : Str) : Nat × Nat :=
  ndiffCounts (splitlinesPy old) (splitlinesPy new)

/-!
## File Content Store

The session's `file_contents` dict holds exactly the three canonical filenames
`index.html`, `frontend.js`, `styles.css` (seeded at lines 575-578 from
`file_map`, whose keys are fixed at lines 327-331); every later write happens
at one of those keys, so the dict is modelled as a three-field structure
accessed by name.
-/

structure FileStore where
  indexHtml : Str
  frontendJs : Str
  stylesCss : Str
deriving DecidableEq

/-- `file_contents.get(n, "")`. -/
def getFile (fc : FileStore) (n : Str) : Str :=
  if n = chars "index.html" then fc.indexHtml
  else if n = chars "frontend.js" then fc.frontendJs
  else if n = chars "styles.css" then fc.stylesCss
  else []

/-- `file_contents[n] = v` for a canonical name `n` (no-op otherwise; the
stream loop only ever writes at canonical names). -/
def setFile (fc : FileStore) (n : Str) (v : Str) : FileStore :=
  if n = chars "index.html" then { fc with indexHtml := v }
  else if n = chars "frontend.js" then { fc with frontendJs := v }
  else if n = chars "styles.css" then { fc with stylesCss := v }
  else fc

/-- Seeding of the in-memory store (lines 575-578): each incoming content is
stored with trailing newlines stripped. -/
def seedStore (html js css : Str) : FileStore :=
  { indexHtml := rstripNl html, frontendJs := rstripNl js, stylesCss := rstripNl css }

/-- The `filenames` set (line 598). -/
def canonicalNames : List Str :=
  [chars "index.html", chars "frontend.js", chars "styles.css"]

/-- The `filetype_map` dict (lines 599-603). -/
def filetypeMap (n : Str) : Option Str :=
  if n = chars "index.html" then some (chars "html")
  else if n = chars "frontend.js" then some (chars "js")
  else if n = chars "styles.css" then some (chars "css")
  else none

/-!
## Search/replace patch helpers (imported from `replace_code.py`, not under
the sources; modelled from the spec)
-/

/-- Find the first line whose stripped form equals `marker`; return the lines
before it and the lines after it. -/
def splitAtMarkerLine (marker : Str) : List Str → Option (List Str × List Str)
  | [] => none
  | l :: ls =>
    if strip l = marker then some ([], ls)
    else
      match splitAtMarkerLine marker ls with
      | none => none
      | some (a, b) => some (l :: a, b)

/-- Modelled from the spec: `parse_search_replace_block` lives in
`replace_code.py`, which is not part of the sources.  Per section 4.4 it
recognizes a fixed pair of delimiter markers bracketing the "before" and
"after" halves of the block, in order, and fails when the delimiters are not
present in the expected order.  The conventional SEARCH/REPLACE conflict
markers are fixed as those delimiters. -/
def parse_search_replace_block (content : Str) : Option (Str × Str) :=
  match splitlinesPy content with
  | [] => none
  | first :: rest =>
    if strip first = chars "<<<<<<< SEARCH" then
      match splitAtMarkerLine (chars "=======") rest with
      | none => none
      | some (searchLines, rest2) =>
        match splitAtMarkerLine (chars ">>>>>>> REPLACE") rest2 with
        | none => none
        | some (replLines, _) => some (joinNl searchLines, joinNl replLines)
    else none

/-- Modelled from the spec: `apply_search_replace_in_memory` lives in
`replace_code.py`, which is not part of the sources.  Per section 4.4 it scans
the File Content Store in the fixed canonical order, picks the first file
whose current content contains the search text verbatim, and replaces the
first occurrence of the search text; it fails (returns `none`, the Python
`None, None`) when no file's content contains the search text, without
touching the store. -/
def apply_search_replace_in_memory (fc : FileStore) (orig upd : Str) : Option (Str × Str) :=
  if containsSub fc.indexHtml orig then
    some (chars "index.html", replaceFirst fc.indexHtml orig upd)
  else if containsSub fc.frontendJs orig then
    some (chars "frontend.js", replaceFirst fc.frontendJs orig upd)
  else if containsSub fc.stylesCss orig then
    some (chars "styles.css", replaceFirst fc.stylesCss orig upd)
  else none

/-!
## Events

One constructor per emitted newline-delimited JSON record shape.  All records
except `tool_progress` carry a `"state"` discriminant field; the
`tool_progress` record (lines 669-673) instead carries a `"type"` field.
`diff_stats` is the per-edit `{type: {additions, deletions}}` mapping, encoded
as an association list (empty when the target type is unknown).
-/

inductive Event where
  | restate (text : Str)
  | signpost (target_files : List Str)
  | tool_progress (filename : Str) (content : Str)
  | tool_result (target_files : List Str) (diff_stats : List (Str × Nat × Nat))
      (filename : Str) (updated_content : Str)
  | error (message : Str)
deriving DecidableEq

/-- Whether the JSON record emitted for the event carries the `"state"`
discriminant (all shapes of section 6 do; the `tool_progress` record is
discriminated by a `"type"` field instead). -/
def usesStateDiscriminant : Event → Bool
  | .tool_progress _ _ => false
  | _ => true

/-- `"edit_fail: SEARCH block did not match any open files"` (lines 734, 821). -/
def editFailMsg : Str := chars "edit_fail: SEARCH block did not match any open files"

/-!
## Edit state machine

State variables of the streaming loop (lines 589-596 and 568-572), one field
per Python local.  `file_diff_stats` and `changed_edit_blocks` are dicts keyed
by filename, modelled as insertion-ordered association lists.
-/

structure MachineState where
  in_tool : Bool
  current_filename : Option Str
  in_fence : Bool
  fence_lang_seen : Bool
  edit_lines : List Str
  raw_lines : List Str
  message_accum : Str
  file_contents : FileStore
  changed_edit_blocks : List (Str × Str)
  file_diff_stats : List (Str × Nat × Nat)
deriving DecidableEq

/-- `file_diff_stats.get(k, {"additions": 0, "deletions": 0})`. -/
def statsGet (m : List (Str × Nat × Nat)) (k : Str) : Nat × Nat :=
  match m.find? (fun e => e.1 == k) with
  | some e => e.2
  | none => (0, 0)

/-- `m[k] = v` with dict semantics: replace in place if present, else append. -/
def statsSet (m : List (Str × Nat × Nat)) (k : Str) (v : Nat × Nat) :
    List (Str × Nat × Nat) :=
  if m.any (fun e => e.1 == k) then
    m.map (fun e => if e.1 == k then (k, v.1, v.2) else e)
  else m ++ [(k, v.1, v.2)]

/-- The cumulative per-file stats update (lines 708-711, 766-769, 852-855). -/
def statsAdd (m : List (Str × Nat × Nat)) (k : Str) (p : Nat × Nat) :
    List (Str × Nat × Nat) :=
  let e := statsGet m k
  statsSet m k (e.1 + p.1, e.2 + p.2)

/-- `changed_edit_blocks[k] = v` with dict semantics. -/
def blocksSet (m : List (Str × Str)) (k v : Str) : List (Str × Str) :=
  if m.any (fun e => e.1 == k) then
    m.map (fun e => if e.1 == k then (k, v) else e)
  else m ++ [(k, v)]

/-- The state reset performed after a fence is finalized (lines 722-728,
736-741, 782-787, 823-828, 866-871): back to AWAITING_FILE.  `message_accum`
is never reset here. -/
def resetFlags (st : MachineState) : MachineState :=
  { st with in_tool := false, in_fence := false, fence_lang_seen := false,
            current_filename := none, edit_lines := [], raw_lines := [] }

/-- `line.strip().startswith("```")` (lines 660, 676, 798). -/
def isFenceMarker (line : Str) : Bool :=
  (chars "```").isPrefixOf (strip line)

/-- `Path(line.strip()).name if line.strip() else ""` (lines 624-625). -/
def awaitBasename (line : Str) : Str :=
  let stripped := strip line
  if stripped = [] then [] else pathBasename stripped

/-- `[target_type] if target_type else []`. -/
def optToList (o : Option Str) : List Str :=
  match o with
  | some t => [t]
  | none => []

/-- `{target_type: {...}} if target_type else {}`. -/
def statsPayload (o : Option Str) (p : Nat × Nat) : List (Str × Nat × Nat) :=
  match o with
  | some t => [(t, p.1, p.2)]
  | none => []

/-- The AWAITING_FILE branch (`if not in_tool:`, lines 623-656): a line whose
stripped basename is canonical flushes any accumulated assistant text as a
`restate` record, emits the `signpost` record and enters the tool; any other
nonblank line is accumulated into `message_accum`; whitespace-only lines are
discarded. -/
def procAwait (st : MachineState) (line : Str) : List Event × MachineState :=
  let basename := awaitBasename line
  if basename ∈ canonicalNames then
    let flushEvs :=
      if st.message_accum ≠ [] then
        [Event.restate (sanitize_message_text st.message_accum)]
      else []
    (flushEvs ++ [Event.signpost (optToList (filetypeMap basename))],
     { st with in_tool := true, current_filename := some basename,
               raw_lines := [line], message_accum := [] })
  else if strip line ≠ [] then
    ([], { st with message_accum := st.message_accum ++ line ++ ['\n'] })
  else ([], st)

/-- The PRE_FENCE branch (`if not in_fence:`, lines 659-674): a fence marker
opens the fence (resetting `fence_lang_seen` to `False` and clearing
`edit_lines`); any other nonblank line is forwarded as a `tool_progress`
record; blank lines are ignored. -/
def procPre (st : MachineState) (line : Str) : List Event × MachineState :=
  if isFenceMarker line then
    ([], { st with in_fence := true, fence_lang_seen := false, edit_lines := [],
                   raw_lines := st.raw_lines ++ [line] })
  else if strip line ≠ [] then
    ([Event.tool_progress (st.current_filename.getD []) line],
     { st with raw_lines := st.raw_lines ++ [line] })
  else ([], st)

/-- Finalization of a fence closed mid-stream (lines 676-787): try the
search/replace route first; on a successful apply the resolved target file is
updated with the newline-stripped new text; on a failed apply one `error`
record is emitted and nothing is written; when the content does not parse as a
patch, the announced file's content is replaced by the newline-stripped fence
content, while the emitted `tool_result` carries the unstripped `content_str`
(line 777) and the diff is computed against the unstripped `content_str`
(line 759). -/
def finalizeMid (st : MachineState) (_line : Str) : List Event × MachineState :=
  let content_str := joinNl st.edit_lines
  let curName := st.current_filename.getD []
  let old_text_current := getFile st.file_contents curName
  match parse_search_replace_block content_str with
  | some (orig_block, upd_block) =>
    match apply_search_replace_in_memory st.file_contents orig_block upd_block with
    | some (target_name, new_text) =>
      let target_type := filetypeMap target_name
      let new_text_stripped := rstripNl new_text
      let p := pyDiff old_text_current new_text_stripped
      ([Event.tool_result (optToList target_type) (statsPayload target_type p)
          target_name new_text_stripped],
       { resetFlags st with
           file_contents := setFile st.file_contents target_name new_text_stripped,
           changed_edit_blocks := blocksSet st.changed_edit_blocks target_name content_str,
           file_diff_stats := statsAdd st.file_diff_stats target_name p })
    | none =>
      ([Event.error editFailMsg], resetFlags st)
  | none =>
    let content_str_stripped := rstripNl content_str
    let target_type := filetypeMap curName
    let p := pyDiff old_text_current content_str
    ([Event.tool_result (optToList target_type) (statsPayload target_type p)
        curName content_str],
     { resetFlags st with
         file_contents := setFile st.file_contents curName content_str_stripped,
         file_diff_stats := statsAdd st.file_diff_stats curName p })

/-- The IN_FENCE branch (lines 675-794): a fence marker closes and finalizes
the block; otherwise the line is accumulated into `edit_lines` — unless
`fence_lang_seen` is set, in which case it would be dropped; the flag is
initialized `False` at fence open and never set `True` anywhere, so the drop
branch is dead code. -/
def procFence (st : MachineState) (line : Str) : List Event × MachineState :=
  if isFenceMarker line then finalizeMid st line
  else if st.fence_lang_seen then
    ([], { st with fence_lang_seen := false, raw_lines := st.raw_lines ++ [line] })
  else
    ([], { st with edit_lines := st.edit_lines ++ [line],
                   raw_lines := st.raw_lines ++ [line] })

/-- Processing of one complete line by the streaming loop body (lines 623-794). -/
def procLine (st : MachineState) (line : Str) : List Event × MachineState :=
  if st.in_tool = false then procAwait st line
  else if st.in_fence = false then procPre st line
  else procFence st line

/-- Processing of a list of lines in order, threading the machine state. -/
def procLines (st : MachineState) : List Str → List Event × MachineState
  | [] => ([], st)
  | l :: ls =>
    let a := procLine st l
    let b := procLines a.2 ls
    (a.1 ++ b.1, b.2)

/-- The end-of-stream flush (lines 796-887): if the machine is inside a fence
and the unterminated remainder is a closing fence marker (and a current file
is set), the fence is finalized — a failed search/replace apply emits an
`error` record, resets the state, and then (the code falls through) still
emits a `tool_result` record whose diff counts are zeroed by the caught
`None.splitlines()` exception and whose `updated_content` is the raw fence
content; successful routes write the newline-stripped content and emit it.
Afterwards any remaining `message_accum` plus leftover buffer is flushed as a
final `restate` record. -/
def flushEOF (st : MachineState) (buffer : Str) : List Event × MachineState :=
  let fn := st.current_filename.getD []
  if st.in_fence = true ∧ isFenceMarker buffer = true ∧ fn ≠ [] then
    let content_str := joinNl st.edit_lines
    let old_text := getFile st.file_contents fn
    let r :=
      match parse_search_replace_block content_str with
      | some (orig_block, upd_block) =>
        match apply_search_replace_in_memory st.file_contents orig_block upd_block with
        | some (tname, new_text) =>
          let p := rstripNl new_text
          (([] : List Event), some p, tname,
           setFile st.file_contents tname p,
           blocksSet st.changed_edit_blocks tname content_str)
        | none =>
          ([Event.error editFailMsg], none, fn, st.file_contents,
           st.changed_edit_blocks)
      | none =>
        let p := rstripNl content_str
        (([] : List Event), some p, fn, setFile st.file_contents fn p,
         st.changed_edit_blocks)
    let preEvents := r.1
    let payload := r.2.1
    let target_name := r.2.2.1
    let fc' := r.2.2.2.1
    let ceb' := r.2.2.2.2
    let target_type := filetypeMap target_name
    let q :=
      match payload with
      | some p => pyDiff old_text p
      | none => ((0 : Nat), (0 : Nat))
    let ev := Event.tool_result (optToList target_type) (statsPayload target_type q)
        target_name (payload.getD content_str)
    let st' := { resetFlags st with
                   file_contents := fc', changed_edit_blocks := ceb',
                   file_diff_stats := statsAdd st.file_diff_stats target_name q }
    let tailText := st'.message_accum
    let tailEvents :=
      if tailText ≠ [] then [Event.restate (sanitize_message_text tailText)] else []
    (preEvents ++ [ev] ++ tailEvents, st')
  else
    let tailText := st.message_accum ++ buffer
    let tailEvents :=
      if tailText ≠ [] then [Event.restate (sanitize_message_text tailText)] else []
    (tailEvents, st)

/-- The machine state at session start (lines 589-596). -/
def initMachine (fc : FileStore) : MachineState :=
  { in_tool := false, current_filename := none, in_fence := false,
    fence_lang_seen := false, edit_lines := [], raw_lines := [],
    message_accum := [], file_contents := fc, changed_edit_blocks := [],
    file_diff_stats := [] }

/-- The tokenizer buffer together with the machine state: the loop state of
`event_generator`. -/
structure LoopState where
  buffer : Str
  ms : MachineState
deriving DecidableEq

/-- One iteration of `for chunk in coder.run_stream(...)` (lines 616-794):
append the chunk to the buffer, split off every complete line and feed each to
the machine in order. -/
def feedChunk (ls : LoopState) (chunk : Str) : List Event × LoopState :=
  let p := splitLines (ls.buffer ++ chunk)
  let q := procLines ls.ms p.1
  (q.1, ⟨p.2, q.2⟩)

def stepChunk (acc : List Event × LoopState) (chunk : Str) : List Event × LoopState :=
  let r := feedChunk acc.2 chunk
  (acc.1 ++ r.1, r.2)

def runChunks (fc : FileStore) (chunks : List Str) : List Event × LoopState :=
  chunks.foldl stepChunk ([], ⟨[], initMachine fc⟩)

/-- A whole streaming session over a sequence of chunks: the chunk loop
followed by the end-of-stream flush.  Returns the emitted event sequence and
the final machine state (whose `file_contents` is what the caller persists). -/
def runSession (fc : FileStore) (chunks : List Str) : List Event × MachineState :=
  let r := runChunks fc chunks
  let f := flushEOF r.2.ms r.2.buffer
  (r.1 ++ f.1, f.2)

/-- A stored value carries no trailing newline character. -/
abbrev noTrailNl (s : Str) : Prop := s.getLast? ≠ some '\n'

/-- Every entry of the File Content Store carries no trailing newline. -/
abbrev storeNoTrailNl (fc : FileStore) : Prop :=
  noTrailNl fc.indexHtml ∧ noTrailNl fc.frontendJs ∧ noTrailNl fc.stylesCss

/-- An IN_FENCE state for `index.html` holding a plain (unparseable) block. -/
def fenceStatePlain : MachineState :=
  { in_tool := true, current_filename := some (chars "index.html"), in_fence := true,
    fence_lang_seen := false, edit_lines := [chars "hello"], raw_lines := [],
    message_accum := [], file_contents := seedStore [] [] [],
    changed_edit_blocks := [], file_diff_stats := [] }

/-- An IN_FENCE state holding a search/replace block whose search text `xyz`
occurs in none of the (empty) files. -/
def fenceStateSR : MachineState :=
  { fenceStatePlain with
      edit_lines := [chars "<<<<<<< SEARCH", chars "xyz", chars "=======",
                     chars "abc", chars ">>>>>>> REPLACE"] }

/-- An IN_FENCE state whose accumulated block ends with a blank line, so the
joined fence content carries a trailing newline. -/
def fenceStateTrailingBlank : MachineState :=
  { fenceStatePlain with edit_lines := [chars "a", []] }

/-- A PRE_FENCE state (tool announced, fence not yet opened). -/
def preFenceState : MachineState :=
  { fenceStatePlain with in_fence := false }

/-- C1 witness chunkings of the same total stream. -/
def chunksA : List Str := [chars "index.ht", chars "ml\n```\nhi", chars "\n```\n"]

def chunksB : List Str := [chars "index.html\n", chars "```\nhi\n``", chars "`\n"]

theorem splitLines_cons_nl (cs : Str) :
    splitLines ('\n' :: cs) = ([] :: (splitLines cs).1, (splitLines cs).2) := by
  simp [splitLines]

theorem splitLines_cons_nil (c : Char) (cs : Str) (hc : c ≠ '\n')
    (hp : (splitLines cs).1 = []) :
    splitLines (c :: cs) = ([], c :: (splitLines cs).2) := by
  simp [splitLines, hc, hp]

theorem splitLines_cons_cons (c : Char) (cs : Str) (l : Str) (ls : List Str)
    (hc : c ≠ '\n') (hp : (splitLines cs).1 = l :: ls) :
    splitLines (c :: cs) = ((c :: l) :: ls, (splitLines cs).2) := by
  simp [splitLines, hc, hp]

/-- A buffer that yields no complete line is returned unchanged as remainder. -/
theorem splitLines_fst_nil : ∀ l : Str, (splitLines l).1 = [] → (splitLines l).2 = l := by
  intro l
  induction l with
  | nil => intro _; rfl
  | cons c cs ih =>
    intro h
    by_cases hc : c = '\n'
    · subst hc; rw [splitLines_cons_nl] at h; simp at h
    · cases hp : (splitLines cs).1 with
      | nil =>
        rw [splitLines_cons_nil c cs hc hp]
        simp [ih hp]
      | cons l' ls' =>
        rw [splitLines_cons_cons c cs l' ls' hc hp] at h
        simp at h

/-- The remainder left by `splitLines` contains no further complete line. -/
theorem splitLines_rem : ∀ l : Str, splitLines (splitLines l).2 = ([], (splitLines l).2) := by
  intro l
  induction l with
  | nil => rfl
  | cons c cs ih =>
    by_cases hc : c = '\n'
    · subst hc; rw [splitLines_cons_nl]; exact ih
    · cases hp : (splitLines cs).1 with
      | nil =>
        have h2 := splitLines_fst_nil cs hp
        rw [splitLines_cons_nil c cs hc hp]
        show splitLines (c :: (splitLines cs).2) = ([], c :: (splitLines cs).2)
        rw [h2]
        rw [splitLines_cons_nil c cs hc hp, h2]
      | cons l' ls' =>
        rw [splitLines_cons_cons c cs l' ls' hc hp]
        exact ih

/-- Splitting a concatenation first exhausts the left part, then continues with
the left remainder glued to the right part. -/
theorem splitLines_append (a b : Str) :
    splitLines (a ++ b) =
      ((splitLines a).1 ++ (splitLines ((splitLines a).2 ++ b)).1,
       (splitLines ((splitLines a).2 ++ b)).2) := by
  induction a with
  | nil => simp [splitLines]
  | cons c cs ih =>
    rw [List.cons_append]
    by_cases hc : c = '\n'
    · subst hc
      rw [splitLines_cons_nl, splitLines_cons_nl]
      simp [ih]
    · cases hp : (splitLines cs).1 with
      | nil =>
        have h2 := splitLines_fst_nil cs hp
        rw [splitLines_cons_nil c cs hc hp]
        show splitLines (c :: (cs ++ b)) =
          ([] ++ (splitLines ((c :: (splitLines cs).2) ++ b)).1,
           (splitLines ((c :: (splitLines cs).2) ++ b)).2)
        rw [h2]
        simp [List.cons_append]
      | cons l ls =>
        have hq : (splitLines (cs ++ b)).1
            = l :: (ls ++ (splitLines ((splitLines cs).2 ++ b)).1) := by
          rw [ih, hp]; rfl
        rw [splitLines_cons_cons c (cs ++ b) _ _ hc hq,
            splitLines_cons_cons c cs l ls hc hp]
        simp [ih]

theorem feed_feed (s : List Str × Str) (c d : Str) :
    feed (feed s c) d = feed s (c ++ d) := by
  simp only [feed, ← List.append_assoc]
  rw [splitLines_append (s.2 ++ c) d]
  simp

theorem foldl_feed_flatten (chunks : List Str) :
    ∀ s : List Str × Str, splitLines s.2 = ([], s.2) →
      chunks.foldl feed s = feed s chunks.flatten := by
  induction chunks with
  | nil =>
    intro s hs
    simp only [List.foldl_nil, List.flatten_nil, feed, List.append_nil, hs]
  | cons c cs ih =>
    intro s hs
    have hinv : splitLines (feed s c).2 = ([], (feed s c).2) := by
      simp only [feed]
      exact splitLines_rem (s.2 ++ c)
    simp only [List.foldl_cons, List.flatten_cons, ih (feed s c) hinv, feed_feed]

/-- The tokenizer output is a function of the joined stream only. -/
theorem feedAll_flatten (chunks : List Str) :
    feedAll chunks = splitLines chunks.flatten := by
  have h := foldl_feed_flatten chunks ([], []) (by rfl)
  simp only [feedAll, h, feed, List.nil_append]

/-!
## Supporting lemmas
-/

theorem procLines_append (l1 l2 : List Str) :
    ∀ st : MachineState,
      procLines st (l1 ++ l2) =
        ((procLines st l1).1 ++ (procLines (procLines st l1).2 l2).1,
         (procLines (procLines st l1).2 l2).2) := by
  induction l1 with
  | nil => intro st; simp [procLines]
  | cons l ls ih => intro st; simp [procLines, ih]

theorem foldl_stepChunk_staged (chunks : List Str) :
    ∀ (acc : List Event) (ls : LoopState), splitLines ls.buffer = ([], ls.buffer) →
      chunks.foldl stepChunk (acc, ls) =
        (acc ++ (procLines ls.ms (splitLines (ls.buffer ++ chunks.flatten)).1).1,
         ⟨(splitLines (ls.buffer ++ chunks.flatten)).2,
          (procLines ls.ms (splitLines (ls.buffer ++ chunks.flatten)).1).2⟩) := by
  induction chunks with
  | nil =>
    intro acc ls hs
    simp only [List.foldl_nil, List.flatten_nil, List.append_nil, hs]
    simp [procLines]
  | cons c cs ih =>
    intro acc ls hs
    rw [List.foldl_cons]
    have hinv : splitLines (stepChunk (acc, ls) c).2.buffer
        = ([], (stepChunk (acc, ls) c).2.buffer) := by
      simp only [stepChunk, feedChunk]
      exact splitLines_rem (ls.buffer ++ c)
    rw [ih _ _ hinv]
    simp only [stepChunk, feedChunk, List.flatten_cons]
    rw [show ls.buffer ++ (c ++ cs.flatten) = (ls.buffer ++ c) ++ cs.flatten from
          (List.append_assoc _ _ _).symm,
        splitLines_append (ls.buffer ++ c) cs.flatten,
        procLines_append]
    simp [List.append_assoc]

/-- A whole session is a function of the flattened character stream. -/
theorem runSession_staged (fc : FileStore) (chunks : List Str) :
    runSession fc chunks =
      ((procLines (initMachine fc) (splitLines chunks.flatten).1).1 ++
        (flushEOF (procLines (initMachine fc) (splitLines chunks.flatten).1).2
          (splitLines chunks.flatten).2).1,
       (flushEOF (procLines (initMachine fc) (splitLines chunks.flatten).1).2
         (splitLines chunks.flatten).2).2) := by
  have h := foldl_stepChunk_staged chunks [] ⟨[], initMachine fc⟩ (by rfl)
  simp only [runSession, runChunks, h, List.nil_append]

theorem lcsAux_self (l : List Str) :
    ∀ fuel, l.length ≤ fuel → lcsAux fuel l l = l.length := by
  induction l with
  | nil => intro fuel _; cases fuel <;> rfl
  | cons a as ih =>
    intro fuel h
    cases fuel with
    | zero => simp at h
    | succ f =>
      have hf : as.length ≤ f := by
        simpa [Nat.succ_le_succ_iff] using h
      simp [lcsAux, ih f hf, Nat.add_comm]

/-- C1: for every total character stream and any two ways of chunking it, the
line tokenizer produces the same complete lines and the same final
unterminated remainder, and consequently the edit state machine (run over the
chunks, end-of-stream flush included) emits the same event sequence and ends
in the same state. -/
theorem chunk_boundary_independence (cs1 cs2 : List Str) (fc : FileStore)
    (h : cs1.flatten = cs2.flatten) :
    feedAll cs1 = feedAll cs2 ∧ runSession fc cs1 = runSession fc cs2 := by
  refine ⟨?_, ?_⟩
  · rw [feedAll_flatten, feedAll_flatten, h]
  · rw [runSession_staged, runSession_staged, h]

theorem chunk_boundary_independence_witness :
    chunksA.flatten = chunksB.flatten ∧
    feedAll chunksA = feedAll chunksB ∧
    runSession (seedStore [] [] []) chunksA = runSession (seedStore [] [] []) chunksB := by
  have h := chunk_boundary_independence chunksA chunksB (seedStore [] [] []) (by decide)
  exact ⟨by decide, h.1, h.2⟩

/-- C10: the line-level diff of two identical contents — the computation the
stream loop performs at lines 699-707/755-765 — yields zero additions and
zero deletions, for every content string including the empty one. -/
theorem diff_identity (x : Str) : pyDiff x x = (0, 0) := by
  unfold pyDiff ndiffCounts lcsLength
  rw [lcsAux_self (splitlinesPy x) _ (by omega)]
  simp

theorem apply_none_of_no_match (fc : FileStore) (s r : Str)
    (h1 : containsSub fc.indexHtml s = false)
    (h2 : containsSub fc.frontendJs s = false)
    (h3 : containsSub fc.stylesCss s = false) :
    apply_search_replace_in_memory fc s r = none := by
  unfold apply_search_replace_in_memory
  rw [h1, h2, h3]
  simp

/-- C2: when a fence closes mid-stream on a block that parses as a
search/replace patch whose search text occurs in no file's content, exactly
one `error` record is emitted, the File Content Store is untouched, and the
machine returns to the AWAITING_FILE state. -/
theorem patch_failure_nondestructive (st : MachineState) (line s r : Str)
    (hTool : st.in_tool = true) (hFence : st.in_fence = true)
    (hMarker : isFenceMarker line = true)
    (hParse : parse_search_replace_block (joinNl st.edit_lines) = some (s, r))
    (h1 : containsSub st.file_contents.indexHtml s = false)
    (h2 : containsSub st.file_contents.frontendJs s = false)
    (h3 : containsSub st.file_contents.stylesCss s = false) :
    procLine st line = ([Event.error editFailMsg], resetFlags st) ∧
    (procLine st line).2.file_contents = st.file_contents ∧
    (procLine st line).2.in_tool = false ∧
    (procLine st line).2.in_fence = false ∧
    (procLine st line).2.current_filename = none := by
  have happly := apply_none_of_no_match st.file_contents s r h1 h2 h3
  have hmain : procLine st line = ([Event.error editFailMsg], resetFlags st) := by
    unfold procLine procFence finalizeMid
    rw [hTool, hFence, hMarker]
    simp only [hParse, happly]
    simp
  exact ⟨hmain, by rw [hmain]; rfl, by rw [hmain]; rfl, by rw [hmain]; rfl, by rw [hmain]; rfl⟩

theorem patch_failure_nondestructive_witness :
    procLine fenceStateSR (chars "```") = ([Event.error editFailMsg], resetFlags fenceStateSR) ∧
    (procLine fenceStateSR (chars "```")).2.file_contents = fenceStateSR.file_contents ∧
    (procLine fenceStateSR (chars "```")).2.in_tool = false ∧
    (procLine fenceStateSR (chars "```")).2.in_fence = false ∧
    (procLine fenceStateSR (chars "```")).2.current_filename = none :=
  patch_failure_nondestructive fenceStateSR (chars "```") (chars "xyz") (chars "abc")
    rfl rfl (by decide) (by decide) (by decide) (by decide) (by decide)

theorem getFile_setFile_ne (fc : FileStore) (k v n : Str) (h : n ≠ k) :
    getFile (setFile fc k v) n = getFile fc n := by
  unfold getFile setFile
  split_ifs <;> simp_all

/-- C3: when a fence closes mid-stream on a block that does not parse as a
search/replace patch, the announced file's stored content becomes exactly the
fence content with trailing newlines stripped, exactly one `tool_result`
record naming the announced file is emitted, and no other file's stored
content changes. -/
theorem unparsed_fence_full_replacement (st : MachineState) (line fn : Str)
    (hTool : st.in_tool = true) (hFence : st.in_fence = true)
    (hMarker : isFenceMarker line = true)
    (hCur : st.current_filename = some fn)
    (hParse : parse_search_replace_block (joinNl st.edit_lines) = none) :
    (procLine st line).1 =
      [Event.tool_result (optToList (filetypeMap fn))
        (statsPayload (filetypeMap fn)
          (pyDiff (getFile st.file_contents fn) (joinNl st.edit_lines)))
        fn (joinNl st.edit_lines)] ∧
    (procLine st line).2.file_contents
      = setFile st.file_contents fn (rstripNl (joinNl st.edit_lines)) ∧
    ∀ n : Str, n ≠ fn →
      getFile (procLine st line).2.file_contents n = getFile st.file_contents n := by
  have hmain : procLine st line =
      ([Event.tool_result (optToList (filetypeMap fn))
          (statsPayload (filetypeMap fn)
            (pyDiff (getFile st.file_contents fn) (joinNl st.edit_lines)))
          fn (joinNl st.edit_lines)],
       { resetFlags st with
           file_contents := setFile st.file_contents fn (rstripNl (joinNl st.edit_lines)),
           file_diff_stats := statsAdd st.file_diff_stats fn
             (pyDiff (getFile st.file_contents fn) (joinNl st.edit_lines)) }) := by
    unfold procLine procFence finalizeMid
    rw [hTool, hFence, hMarker]
    simp only [hParse, hCur, Option.getD_some]
    simp
  refine ⟨by rw [hmain], by rw [hmain], ?_⟩
  intro n hn
  rw [hmain]
  exact getFile_setFile_ne st.file_contents fn (rstripNl (joinNl st.edit_lines)) n hn

theorem unparsed_fence_full_replacement_witness :
    (procLine fenceStatePlain (chars "```")).1 =
      [Event.tool_result (optToList (filetypeMap (chars "index.html")))
        (statsPayload (filetypeMap (chars "index.html"))
          (pyDiff (getFile fenceStatePlain.file_contents (chars "index.html"))
            (joinNl fenceStatePlain.edit_lines)))
        (chars "index.html") (joinNl fenceStatePlain.edit_lines)] ∧
    (procLine fenceStatePlain (chars "```")).2.file_contents
      = setFile fenceStatePlain.file_contents (chars "index.html")
          (rstripNl (joinNl fenceStatePlain.edit_lines)) ∧
    getFile (procLine fenceStatePlain (chars "```")).2.file_contents (chars "styles.css")
      = getFile fenceStatePlain.file_contents (chars "styles.css") := by
  have h := unparsed_fence_full_replacement fenceStatePlain (chars "```")
    (chars "index.html") rfl rfl (by decide) rfl (by decide)
  exact ⟨h.1, h.2.1, h.2.2 (chars "styles.css") (by decide)⟩

/-- C6 counterexample: a whitespace-only line in AWAITING_FILE is not
accumulated into the pending free-text buffer (the machine state is returned
unchanged and no record is emitted), and consequently it does not appear in
the restate record flushed when the next canonical filename line arrives. -/
theorem awaiting_blank_line_counterexample :
    procLine (initMachine (seedStore [] [] [])) (chars " ")
      = ([], initMachine (seedStore [] [] [])) ∧
    (runSession (seedStore [] [] []) [chars "a\n \nindex.html\n"]).1 =
      [Event.restate (chars "a\n"), Event.signpost [chars "html"]] := by decide

/-- C6 (amended): in AWAITING_FILE, a nonblank line that is not a canonical
filename is appended (with a newline) to the pending free-text buffer with no
record emitted, and therefore appears in the next flushed restate; a
whitespace-only line is discarded entirely and never triggers a flush by
itself; a canonical filename line arriving with a nonempty buffer flushes it
as the restate record preceding the signpost. -/
theorem awaiting_free_text_accumulation (st : MachineState) (line : Str)
    (hTool : st.in_tool = false) :
    (awaitBasename line ∉ canonicalNames → strip line = [] →
        procLine st line = ([], st)) ∧
    (awaitBasename line ∉ canonicalNames → strip line ≠ [] →
        procLine st line
          = ([], { st with message_accum := st.message_accum ++ line ++ ['\n'] })) ∧
    (awaitBasename line ∈ canonicalNames → st.message_accum ≠ [] →
        (procLine st line).1
          = [Event.restate (sanitize_message_text st.message_accum),
             Event.signpost (optToList (filetypeMap (awaitBasename line)))]) := by
  refine ⟨?_, ?_, ?_⟩
  · intro hb hs
    unfold procLine procAwait
    rw [hTool]
    simp [hb, hs]
  · intro hb hs
    unfold procLine procAwait
    rw [hTool]
    simp [hb, hs]
  · intro hb ha
    unfold procLine procAwait
    rw [hTool]
    simp [hb, ha]

theorem awaiting_free_text_accumulation_witness :
    procLine (initMachine (seedStore [] [] [])) (chars "hello")
      = ([], { initMachine (seedStore [] [] []) with
                 message_accum := (initMachine (seedStore [] [] [])).message_accum
                   ++ chars "hello" ++ ['\n'] }) :=
  (awaiting_free_text_accumulation (initMachine (seedStore [] [] []))
      (chars "hello") rfl).2.1 (by decide) (by decide)

theorem finalizeMid_flags (st : MachineState) (l : Str) :
    (finalizeMid st l).2.fence_lang_seen = false ∧
    (finalizeMid st l).2.in_tool = false ∧
    (finalizeMid st l).2.in_fence = false ∧
    (finalizeMid st l).2.current_filename = none := by
  unfold finalizeMid
  rcases hp : parse_search_replace_block (joinNl st.edit_lines) with _ | ⟨a, b⟩
  · simp [hp, resetFlags]
  · rcases ha : apply_search_replace_in_memory st.file_contents a b with _ | ⟨tn, nt⟩
    · simp [hp, ha, resetFlags]
    · simp [hp, ha, resetFlags]

/-- C7 counterexample: after a bare fence open, the first following line is
accumulated as content — it ends up in the emitted tool_result and in the
stored file content — rather than being dropped as a language tag. -/
theorem fence_language_line_dropped_counterexample :
    (runSession (seedStore [] [] []) [chars "index.html\n```\nfoo\n```\n"]).1 =
      [Event.signpost [chars "html"],
       Event.tool_result [chars "html"] [(chars "html", 1, 0)] (chars "index.html")
         (chars "foo")] ∧
    (runSession (seedStore [] [] [])
        [chars "index.html\n```\nfoo\n```\n"]).2.file_contents.indexHtml
      = chars "foo" := by decide

/-- C7 (amended): a fence's language tag only ever rides on the opening marker
line itself and is consumed with it; the `fence_lang_seen` flag is set `False`
at fence open and is never set `True` by any transition, so the first line
following the open marker is accumulated into the fence content like any
other non-marker line. -/
theorem fence_language_line_kept (st : MachineState) (line : Str) :
    (st.in_tool = true → st.in_fence = false → isFenceMarker line = true →
        (procLine st line).2.fence_lang_seen = false ∧
        (procLine st line).2.edit_lines = []) ∧
    (st.fence_lang_seen = false → (procLine st line).2.fence_lang_seen = false) ∧
    (st.in_tool = true → st.in_fence = true → st.fence_lang_seen = false →
        isFenceMarker line = false →
        (procLine st line).2.edit_lines = st.edit_lines ++ [line]) := by
  refine ⟨?_, ?_, ?_⟩
  · intro h1 h2 h3
    unfold procLine procPre
    rw [h1, h2]
    simp [h3]
  · intro h
    have hf := (finalizeMid_flags st line).1
    simp only [procLine, procAwait, procPre, procFence]
    split_ifs <;> simp_all
  · intro h1 h2 h3 h4
    simp only [procLine, procFence]
    rw [h1, h2]
    simp [h4, h3]

theorem fence_language_line_kept_witness :
    (procLine { fenceStatePlain with in_fence := false } (chars "```")).2.fence_lang_seen = false ∧
    (procLine { fenceStatePlain with in_fence := false } (chars "```")).2.edit_lines = [] :=
  (fence_language_line_kept { fenceStatePlain with in_fence := false } (chars "```")).1
    rfl rfl (by decide)

theorem procAwait_events_state (st : MachineState) (l : Str) :
    ∀ e ∈ (procAwait st l).1, usesStateDiscriminant e = true := by
  intro e he
  cases e with
  | tool_progress f c =>
    exfalso
    simp only [procAwait] at he
    split_ifs at he <;> simp at he
  | restate t => rfl
  | signpost t => rfl
  | tool_result a b c d => rfl
  | error m => rfl

theorem finalizeMid_events_state (st : MachineState) (l : Str) :
    ∀ e ∈ (finalizeMid st l).1, usesStateDiscriminant e = true := by
  intro e he
  cases e with
  | tool_progress f c =>
    exfalso
    simp only [finalizeMid] at he
    rcases hp : parse_search_replace_block (joinNl st.edit_lines) with _ | ⟨a, b⟩
    · simp only [hp] at he
      simp at he
    · rcases ha : apply_search_replace_in_memory st.file_contents a b with _ | ⟨tn, nt⟩
      · simp only [hp, ha] at he
        simp at he
      · simp only [hp, ha] at he
        simp at he
  | restate t => rfl
  | signpost t => rfl
  | tool_result a b c d => rfl
  | error m => rfl

theorem flushEOF_events_state (st : MachineState) (buf : Str) :
    ∀ e ∈ (flushEOF st buf).1, usesStateDiscriminant e = true := by
  intro e he
  cases e with
  | tool_progress f c =>
    exfalso
    simp only [flushEOF] at he
    rcases hp : parse_search_replace_block (joinNl st.edit_lines) with _ | ⟨a, b⟩
    · simp only [hp] at he
      split_ifs at he <;> simp at he
    · rcases ha : apply_search_replace_in_memory st.file_contents a b with _ | ⟨tn, nt⟩
      · simp only [hp, ha] at he
        split_ifs at he <;> simp at he
      · simp only [hp, ha] at he
        split_ifs at he <;> simp at he
  | restate t => rfl
  | signpost t => rfl
  | tool_result a b c d => rfl
  | error m => rfl

/-- C8 counterexample: a nonblank narration line arriving between an edit's
start and its fence opening produces a `tool_progress` record, which is not
one of the four `"state"`-discriminated shapes of section 6. -/
theorem output_record_shape_counterexample :
    (runSession (seedStore [] [] []) [chars "index.html\nnarr\n"]).1 =
      [Event.signpost [chars "html"],
       Event.tool_progress (chars "index.html") (chars "narr")] ∧
    ((runSession (seedStore [] [] []) [chars "index.html\nnarr\n"]).1.all
        (fun e => usesStateDiscriminant e)) = false := by decide

/-- C8 (amended): every record emitted by the streaming loop is either one of
the four `"state"`-discriminated shapes of section 6, or a `tool_progress`
record (discriminated by a `"type"` field) which is emitted only between an
edit's start and its fence opening and carries the current filename and the
line; the end-of-stream flush emits only `"state"`-discriminated shapes. -/
theorem output_record_shapes (st : MachineState) (line buf : Str) :
    (∀ e ∈ (procLine st line).1,
        usesStateDiscriminant e = true ∨
          (st.in_tool = true ∧ st.in_fence = false ∧
            e = Event.tool_progress (st.current_filename.getD []) line)) ∧
    (∀ e ∈ (flushEOF st buf).1, usesStateDiscriminant e = true) := by
  refine ⟨?_, flushEOF_events_state st buf⟩
  intro e he
  simp only [procLine] at he
  by_cases h1 : st.in_tool = false
  · rw [if_pos h1] at he
    exact Or.inl (procAwait_events_state st line e he)
  · rw [if_neg h1] at he
    by_cases h2 : st.in_fence = false
    · rw [if_pos h2] at he
      simp only [procPre] at he
      split_ifs at he with hm hs
      · simp at he
      · simp at he
        subst he
        refine Or.inr ⟨by simpa using h1, by simpa using h2, rfl⟩
      · simp at he
    · rw [if_neg h2] at he
      simp only [procFence] at he
      split_ifs at he with hm hf
      · exact Or.inl (finalizeMid_events_state st line e he)
      · simp at he
      · simp at he

theorem output_record_shapes_witness :
    usesStateDiscriminant (Event.tool_progress (chars "index.html") (chars "narr")) = true ∨
      (preFenceState.in_tool = true ∧ preFenceState.in_fence = false ∧
        Event.tool_progress (chars "index.html") (chars "narr")
          = Event.tool_progress (preFenceState.current_filename.getD []) (chars "narr")) :=
  (output_record_shapes preFenceState (chars "narr") []).1 _ (by decide)

theorem head?_dropWhile_nl (l : Str) :
    ∀ x, (l.dropWhile (fun c => c == '\n')).head? = some x → (x == '\n') = false := by
  induction l with
  | nil => intro x h; simp at h
  | cons c cs ih =>
    intro x h
    rw [List.dropWhile_cons] at h
    by_cases hc : (c == '\n') = true
    · rw [if_pos hc] at h
      exact ih x h
    · rw [if_neg hc] at h
      simp only [List.head?_cons, Option.some.injEq] at h
      subst h
      simpa using hc

theorem rstripNl_noTrail (s : Str) : noTrailNl (rstripNl s) := by
  unfold noTrailNl rstripNl
  rw [List.getLast?_reverse]
  intro h
  have := head?_dropWhile_nl s.reverse '\n' h
  simp at this

theorem seedStore_noTrail (h j c : Str) : storeNoTrailNl (seedStore h j c) :=
  ⟨rstripNl_noTrail h, rstripNl_noTrail j, rstripNl_noTrail c⟩

theorem storeNoTrail_setFile (fc : FileStore) (k v : Str)
    (hfc : storeNoTrailNl fc) (hv : noTrailNl v) : storeNoTrailNl (setFile fc k v) := by
  obtain ⟨ha, hb, hc⟩ := hfc
  unfold setFile
  split_ifs
  · exact ⟨hv, hb, hc⟩
  · exact ⟨ha, hv, hc⟩
  · exact ⟨ha, hb, hv⟩
  · exact ⟨ha, hb, hc⟩

theorem procLine_preserves_noTrail (st : MachineState) (line : Str)
    (h : storeNoTrailNl st.file_contents) :
    storeNoTrailNl (procLine st line).2.file_contents := by
  unfold procLine
  split_ifs with h1 h2
  · simp only [procAwait]
    split_ifs <;> exact h
  · simp only [procPre]
    split_ifs <;> exact h
  · simp only [procFence]
    split_ifs with hm hf
    · simp only [finalizeMid]
      rcases hp : parse_search_replace_block (joinNl st.edit_lines) with _ | ⟨a, b⟩
      · simp only [hp]
        exact storeNoTrail_setFile _ _ _ h (rstripNl_noTrail _)
      · rcases ha : apply_search_replace_in_memory st.file_contents a b with _ | ⟨tn, nt⟩
        · simp only [hp, ha]; exact h
        · simp only [hp, ha]
          exact storeNoTrail_setFile _ _ _ h (rstripNl_noTrail _)
    · exact h
    · exact h

theorem flushEOF_preserves_noTrail (st : MachineState) (buf : Str)
    (h : storeNoTrailNl st.file_contents) :
    storeNoTrailNl (flushEOF st buf).2.file_contents := by
  rcases hp : parse_search_replace_block (joinNl st.edit_lines) with _ | ⟨a, b⟩
  · simp only [flushEOF, hp]
    split_ifs <;>
      first
        | exact storeNoTrail_setFile _ _ _ h (rstripNl_noTrail _)
        | exact h
  · rcases ha : apply_search_replace_in_memory st.file_contents a b with _ | ⟨tn, nt⟩
    · simp only [flushEOF, hp, ha]
      split_ifs <;> exact h
    · simp only [flushEOF, hp, ha]
      split_ifs <;>
        first
          | exact storeNoTrail_setFile _ _ _ h (rstripNl_noTrail _)
          | exact h

theorem procLines_preserves_noTrail (lines : List Str) :
    ∀ st : MachineState, storeNoTrailNl st.file_contents →
      storeNoTrailNl (procLines st lines).2.file_contents := by
  induction lines with
  | nil => intro st h; exact h
  | cons l ls ih =>
    intro st h
    simp only [procLines]
    exact ih _ (procLine_preserves_noTrail st l h)

theorem runSession_preserves_noTrail (h j c : Str) (chunks : List Str) :
    storeNoTrailNl (runSession (seedStore h j c) chunks).2.file_contents := by
  rw [runSession_staged]
  exact flushEOF_preserves_noTrail _ _
    (procLines_preserves_noTrail _ _ (seedStore_noTrail h j c))

/-- C9: every value stored in the File Content Store ends with no trailing
newline character: seeding strips trailing newlines, and both the per-line
step (covering mid-stream search/replace and full-replacement edits) and the
end-of-stream flush preserve the property; consequently it holds at every
point of every session run from a seeded store. -/
theorem store_values_newline_stripped :
    (∀ h j c, storeNoTrailNl (seedStore h j c)) ∧
    (∀ st line, storeNoTrailNl st.file_contents →
        storeNoTrailNl (procLine st line).2.file_contents) ∧
    (∀ st buf, storeNoTrailNl st.file_contents →
        storeNoTrailNl (flushEOF st buf).2.file_contents) ∧
    (∀ h j c chunks,
        storeNoTrailNl (runSession (seedStore h j c) chunks).2.file_contents) :=
  ⟨seedStore_noTrail, procLine_preserves_noTrail, flushEOF_preserves_noTrail,
   runSession_preserves_noTrail⟩

theorem store_values_newline_stripped_witness :
    storeNoTrailNl (procLine fenceStatePlain (chars "```")).2.file_contents ∧
    storeNoTrailNl (flushEOF fenceStateTrailingBlank (chars "```")).2.file_contents :=
  ⟨store_values_newline_stripped.2.1 fenceStatePlain (chars "```") (by decide),
   store_values_newline_stripped.2.2.1 fenceStateTrailingBlank (chars "```") (by decide)⟩

/-- C4 counterexample: with an accumulated fence content ending in a newline
(trailing blank line inside the fence), the end-of-stream flush path emits a
`tool_result` carrying the newline-stripped content while the mid-stream
close of the same block carries the unstripped content, so the two events
differ. -/
theorem eof_flush_midstream_counterexample :
    (flushEOF fenceStateTrailingBlank (chars "```")).1
      ≠ (procLine fenceStateTrailingBlank (chars "```")).1 := by decide

/-- C4 (amended): for a whole-file-replacement block, the end-of-stream flush
on a buffer holding exactly the closing fence marker emits a `tool_result`
identical (same target_files, diff_stats, filename and updated_content) to
the mid-stream close, provided the accumulated fence content carries no
trailing newline; otherwise the paths agree on target and filename but the
mid-stream path emits the raw (unstripped) fence content. -/
theorem eof_flush_matches_midstream (st : MachineState) (fn : Str)
    (hTool : st.in_tool = true) (hFence : st.in_fence = true)
    (hCur : st.current_filename = some fn) (hFn : fn ≠ [])
    (hAccum : st.message_accum = [])
    (hParse : parse_search_replace_block (joinNl st.edit_lines) = none)
    (hNoNl : rstripNl (joinNl st.edit_lines) = joinNl st.edit_lines) :
    (flushEOF st (chars "```")).1 = (procLine st (chars "```")).1 := by
  have hm : isFenceMarker (chars "```") = true := by decide
  simp only [flushEOF, procLine, procFence, finalizeMid, hParse, hTool, hFence, hCur, hm,
    Option.getD_some, hNoNl, hAccum, resetFlags, hFn]
  simp [hFn]

theorem eof_flush_matches_midstream_witness :
    (flushEOF fenceStatePlain (chars "```")).1
      = (procLine fenceStatePlain (chars "```")).1 :=
  eof_flush_matches_midstream fenceStatePlain (chars "index.html") rfl rfl rfl
    (by decide) rfl (by decide) (by decide)

/-- C5: code-bug evidence, evaluated at the failing input: for the stream
`index.html`, fence open, content line `a`, blank line, fence close (all in
one chunk) over empty seeded files, the mid-stream whole-file path emits
`updated_content` equal to the raw fence content with its trailing newline
(line 777 of the source), while the value stored for `index.html` is the
newline-stripped content — so the emitted `updated_content` is neither
newline-stripped nor equal to the stored value at emission time. -/
theorem updated_content_not_stripped_bug :
    (runSession (seedStore [] [] []) [chars "index.html\n```\na\n\n```\n"]).1 =
      [Event.signpost [chars "html"],
       Event.tool_result [chars "html"] [(chars "html", 1, 0)] (chars "index.html")
         (chars "a\n")] ∧
    (runSession (seedStore [] [] [])
        [chars "index.html\n```\na\n\n```\n"]).2.file_contents.indexHtml = chars "a" ∧
    rstripNl (chars "a\n") ≠ chars "a\n" := by decide
